import Mathlib

/-!
Shallow embedding of `src/examples/voice_agents/M1NDB0T-C0R3.py` (a LiveKit
voice-agent example) and proofs about its locally-owned behaviour: the
Alpaca-JSONL transcript exporter `save_transcript_alpaca`, the transcript
file naming, the log-directory resolution, and the two shutdown hooks
registered by `entrypoint`.
-/

namespace MindBot

/-! ## Python whitespace and `str.strip` (used at lines 143 and 145) -/

/-- Model of the ASCII whitespace characters removed by Python `str.strip()`:
space, tab, newline, carriage return, vertical tab, form feed. -/
def isPyWS (c : Char) : Bool :=
  c = ' ' || c = '\t' || c = '\n' || c = '\r' ||
  c = Char.ofNat 11 || c = Char.ofNat 12

/-- Model of Python `str.strip()` on the character list: drop leading
whitespace, then drop trailing whitespace. -/
def stripChars (l : List Char) : List Char :=
  ((l.dropWhile isPyWS).reverse.dropWhile isPyWS).reverse

/-- Model of Python `str.strip()`. -/
def pystrip (s : String) : String :=
  String.mk (stripChars s.data)

/-! ## The conversation-history data model (lines 133-145)

`session.history.to_dict()` yields a dict whose `"items"` entry is a list of
message dicts; each has a `"role"` string and a `"content"` that is either a
list of strings or some other value that the code passes through `str(...)`.
We model the content as either a list of strings or a plain string. -/

/-- A history entry's `content` value: either a list (joined with newlines at
line 143) or any other value, modelled by its `str(...)` rendering (line 145). -/
inductive Content where
  | strVal : String → Content
  | listVal : List String → Content
deriving DecidableEq, Repr

/-- One item of `history_dict["items"]`: a `role` and a `content`. -/
structure HistoryEntry where
  role : String
  content : Content
deriving DecidableEq, Repr

/-- Lines 142-145: `"\n".join(content_raw).strip()` when the content is a
list, `str(content_raw).strip()` otherwise. -/
def normalizeContent : Content → String
  | .listVal xs => pystrip (String.intercalate "\n" xs)
  | .strVal s => pystrip s

/-! ## The Alpaca pairing loop (lines 136-156) -/

/-- One emitted Alpaca JSONL record (line 150-154). -/
structure AlpacaRecord where
  instruction : String
  input : String
  output : String
deriving DecidableEq, Repr

/-- The per-entry pairing loop of `save_transcript_alpaca` (lines 137-156):
`current_instruction` starts as `None`; a `"user"` entry overwrites it; an
`"assistant"` entry with a pending instruction emits one record (with `input`
fixed to `""`) and resets the pending instruction to `None`; every other
entry is ignored. -/
def processItems : Option String → List HistoryEntry → List AlpacaRecord
  | _, [] => []
  | pending, e :: rest =>
    let content := normalizeContent e.content
    if e.role = "user" then
      processItems (some content) rest
    else if e.role = "assistant" then
      match pending with
      | some instr => ⟨instr, "", content⟩ :: processItems none rest
      | none => processItems none rest
    else
      processItems pending rest

/-- The records written by `save_transcript_alpaca` for a given history
(`current_instruction = None` initially, line 137). -/
def save_transcript_alpaca (items : List HistoryEntry) : List AlpacaRecord :=
  processItems none items

/-- A synthetic alternating history: one `"user"` turn followed by one
`"assistant"` turn per pair. -/
def mkPairHistory : List (Content × Content) → List HistoryEntry
  | [] => []
  | p :: ps => ⟨"user", p.1⟩ :: ⟨"assistant", p.2⟩ :: mkPairHistory ps

/-- The record the exporter emits for one user→assistant pair. -/
def recordOfPair (p : Content × Content) : AlpacaRecord :=
  ⟨normalizeContent p.1, "", normalizeContent p.2⟩

theorem processItems_pairHistory (pairs : List (Content × Content)) :
    ∀ pending, processItems pending (mkPairHistory pairs) = pairs.map recordOfPair := by
  induction pairs with
  | nil => intro pending; rfl
  | cons p ps ih =>
    intro pending
    simp [mkPairHistory, processItems, ih, recordOfPair]

theorem processItems_pairHistory_trailing (pairs : List (Content × Content)) :
    ∀ pending u, processItems pending (mkPairHistory pairs ++ [⟨"user", u⟩])
      = pairs.map recordOfPair := by
  induction pairs with
  | nil => intro pending u; rfl
  | cons p ps ih =>
    intro pending u
    simp [mkPairHistory, processItems, ih, recordOfPair]

theorem processItems_input_empty (items : List HistoryEntry) :
    ∀ pending, ∀ r ∈ processItems pending items, r.input = "" := by
  induction items with
  | nil => intro pending r hr; simp [processItems] at hr
  | cons e rest ih =>
    intro pending r hr
    simp only [processItems] at hr
    split at hr
    · exact ih _ r hr
    · split at hr
      · split at hr
        · rcases List.mem_cons.mp hr with h | h
          · rw [h]
          · exact ih _ r h
        · exact ih _ r hr
      · exact ih _ r hr

/-- C1: for every conversation history given to `save_transcript_alpaca`,
the exporter emits exactly one record per user→assistant pair (also when a
trailing unmatched user turn follows, which produces no record), and every
emitted record has its `input` field equal to the empty string. -/
theorem save_transcript_alpaca_one_record_per_pair :
    (∀ pairs : List (Content × Content),
       save_transcript_alpaca (mkPairHistory pairs) = pairs.map recordOfPair) ∧
    (∀ (pairs : List (Content × Content)) (u : Content),
       save_transcript_alpaca (mkPairHistory pairs ++ [⟨"user", u⟩])
         = pairs.map recordOfPair) ∧
    (∀ (items : List HistoryEntry), ∀ r ∈ save_transcript_alpaca items,
       r.input = "") := by
  refine ⟨fun pairs => processItems_pairHistory pairs none,
    fun pairs u => processItems_pairHistory_trailing pairs none u,
    fun items r hr => processItems_input_empty items none r hr⟩

/-- Witness for C1 at a concrete two-pair history with a trailing user turn. -/
theorem save_transcript_alpaca_one_record_per_pair_witness :
    (save_transcript_alpaca (mkPairHistory
        [(.strVal "hi", .strVal "yo"), (.strVal " a ", .listVal ["b", "c"])]
        ++ [⟨"user", .strVal "late"⟩])
      = [⟨"hi", "", "yo"⟩, ⟨"a", "", "b\nc"⟩]) ∧
    (⟨"hi", "", "yo"⟩ : AlpacaRecord).input = "" := by
  constructor
  · rw [save_transcript_alpaca_one_record_per_pair.2.1
      [(.strVal "hi", .strVal "yo"), (.strVal " a ", .listVal ["b", "c"])]
      (.strVal "late")]
    decide
  · exact save_transcript_alpaca_one_record_per_pair.2.2
      [⟨"user", .strVal "hi"⟩, ⟨"assistant", .strVal "yo"⟩]
      ⟨"hi", "", "yo"⟩ (by decide)

/-- C10: consecutive user messages keep only the most recent one as the
pending instruction (earlier ones are dropped); an assistant message with no
pending instruction emits no record; entries whose role is neither `"user"`
nor `"assistant"` emit no record and leave the pending instruction unchanged. -/
theorem processItems_pairing_discipline :
    (∀ (pending : Option String) (u1 u2 a : Content) (rest : List HistoryEntry),
       processItems pending
           (⟨"user", u1⟩ :: ⟨"user", u2⟩ :: ⟨"assistant", a⟩ :: rest)
         = ⟨normalizeContent u2, "", normalizeContent a⟩ :: processItems none rest) ∧
    (∀ (a : Content) (rest : List HistoryEntry),
       processItems none (⟨"assistant", a⟩ :: rest) = processItems none rest) ∧
    (∀ (pending : Option String) (role : String) (c : Content)
       (rest : List HistoryEntry), role ≠ "user" → role ≠ "assistant" →
       processItems pending (⟨role, c⟩ :: rest) = processItems pending rest) := by
  refine ⟨fun pending u1 u2 a rest => by simp [processItems],
    fun a rest => by simp [processItems],
    fun pending role c rest hu ha => by simp [processItems, hu, ha]⟩

/-- Witness for C10: two consecutive user turns before one assistant turn keep
only the later user content, and a `"system"` entry is ignored. -/
theorem processItems_pairing_discipline_witness :
    processItems none
        [⟨"user", .strVal "a"⟩, ⟨"user", .strVal "b"⟩, ⟨"assistant", .strVal "c"⟩]
      = [⟨"b", "", "c"⟩] ∧
    processItems (some "p") [⟨"system", .strVal "x"⟩] = [] := by
  constructor
  · rw [processItems_pairing_discipline.1 none (.strVal "a") (.strVal "b")
      (.strVal "c") []]
    decide
  · rw [processItems_pairing_discipline.2.2 (some "p") "system" (.strVal "x") []
      (by decide) (by decide)]
    rfl

/-! ## Whitespace normalization of the emitted fields (C9) -/

/-- A character list with no leading and no trailing Python whitespace. -/
def noEdgeWS (l : List Char) : Bool :=
  (match l.head? with
   | some c => !isPyWS c
   | none => true) &&
  (match l.getLast? with
   | some c => !isPyWS c
   | none => true)

/-- A string with no leading and no trailing Python whitespace. -/
def hasNoEdgeWS (s : String) : Bool :=
  noEdgeWS s.data

theorem stripChars_eq_rdropWhile (l : List Char) :
    stripChars l = List.rdropWhile isPyWS (l.dropWhile isPyWS) := rfl

theorem stripChars_head_not (l : List Char) (c : Char) (t : List Char)
    (h : stripChars l = c :: t) : isPyWS c = false := by
  obtain ⟨r, hr⟩ := List.rdropWhile_prefix isPyWS (l.dropWhile isPyWS)
  rw [← stripChars_eq_rdropWhile, h] at hr
  have hne : l.dropWhile isPyWS ≠ [] := by rw [← hr]; simp
  have hh := List.head_dropWhile_not isPyWS l hne
  have hq : (l.dropWhile isPyWS).head? = some c := by rw [← hr]; rfl
  have hc : (l.dropWhile isPyWS).head hne = c :=
    Option.some.inj ((List.head?_eq_head hne).symm.trans hq)
  rwa [hc] at hh

theorem stripChars_getLast?_not (l : List Char) (c : Char)
    (h : (stripChars l).getLast? = some c) : isPyWS c = false := by
  have hne : stripChars l ≠ [] := by
    intro hnil
    rw [hnil] at h
    simp at h
  have hlast := List.rdropWhile_last_not isPyWS (l.dropWhile isPyWS)
    (stripChars_eq_rdropWhile l ▸ hne)
  have hc : (stripChars l).getLast hne = c :=
    Option.some.inj ((List.getLast?_eq_getLast_of_ne_nil hne).symm.trans h)
  simp only [Bool.not_eq_true] at hlast
  calc isPyWS c = isPyWS ((stripChars l).getLast hne) := by rw [hc]
    _ = false := hlast

theorem noEdgeWS_stripChars (l : List Char) : noEdgeWS (stripChars l) = true := by
  unfold noEdgeWS
  rw [Bool.and_eq_true]
  constructor
  · cases hh : (stripChars l).head? with
    | none => rfl
    | some c =>
      cases hsc : stripChars l with
      | nil => rw [hsc] at hh; simp at hh
      | cons a t =>
        rw [hsc] at hh
        simp only [List.head?_cons, Option.some.injEq] at hh
        rw [← hh]
        simp [stripChars_head_not l a t hsc]
  · cases hg : (stripChars l).getLast? with
    | none => rfl
    | some c => simp [stripChars_getLast?_not l c hg]

theorem hasNoEdgeWS_pystrip (s : String) : hasNoEdgeWS (pystrip s) = true :=
  noEdgeWS_stripChars s.data

theorem hasNoEdgeWS_normalize (c : Content) :
    hasNoEdgeWS (normalizeContent c) = true := by
  cases c with
  | strVal s => exact hasNoEdgeWS_pystrip s
  | listVal xs => exact hasNoEdgeWS_pystrip (String.intercalate "\n" xs)

theorem processItems_fields_stripped (items : List HistoryEntry) :
    ∀ (pending : Option String),
      (∀ p, pending = some p → hasNoEdgeWS p = true) →
      ∀ r ∈ processItems pending items,
        hasNoEdgeWS r.instruction = true ∧ hasNoEdgeWS r.output = true := by
  induction items with
  | nil => intro pending _ r hr; simp [processItems] at hr
  | cons e rest ih =>
    intro pending hp r hr
    cases pending with
    | none =>
      simp only [processItems] at hr
      split at hr
      · refine ih _ ?_ r hr
        intro p hp2
        rw [← Option.some.inj hp2]
        exact hasNoEdgeWS_normalize e.content
      · split at hr
        · exact ih none (fun p hp2 => by simp at hp2) r hr
        · exact ih none (fun p hp2 => by simp at hp2) r hr
    | some instr =>
      simp only [processItems] at hr
      split at hr
      · refine ih _ ?_ r hr
        intro p hp2
        rw [← Option.some.inj hp2]
        exact hasNoEdgeWS_normalize e.content
      · split at hr
        · rcases List.mem_cons.mp hr with h | h
          · rw [h]
            exact ⟨hp instr rfl, hasNoEdgeWS_normalize e.content⟩
          · exact ih none (fun p hp2 => by simp at hp2) r h
        · exact ih (some instr) hp r hr

/-- C9: list content is joined with newlines and stripped, other content is
stringified and stripped, so every `instruction` and `output` field of the
emitted records has no leading or trailing whitespace. -/
theorem save_transcript_alpaca_normalization :
    (∀ xs, normalizeContent (.listVal xs) = pystrip (String.intercalate "\n" xs)) ∧
    (∀ s, normalizeContent (.strVal s) = pystrip s) ∧
    (∀ items, ∀ r ∈ save_transcript_alpaca items,
       hasNoEdgeWS r.instruction = true ∧ hasNoEdgeWS r.output = true) := by
  refine ⟨fun xs => rfl, fun s => rfl, fun items r hr =>
    processItems_fields_stripped items none (fun p hp => by simp at hp) r hr⟩

/-- Witness for C9 at a concrete history whose contents carry edge whitespace. -/
theorem save_transcript_alpaca_normalization_witness :
    normalizeContent (.listVal [" broad ", "\tquestion\n"]) = "broad \n\tquestion" ∧
    (hasNoEdgeWS (AlpacaRecord.mk "spaced q" "" "a1 \n a2").instruction = true ∧
     hasNoEdgeWS (AlpacaRecord.mk "spaced q" "" "a1 \n a2").output = true) := by
  constructor
  · rw [save_transcript_alpaca_normalization.1 [" broad ", "\tquestion\n"]]
    decide
  · exact save_transcript_alpaca_normalization.2.2
      [⟨"user", .strVal "  spaced q  "⟩, ⟨"assistant", .listVal [" a1 ", " a2 "]⟩]
      ⟨"spaced q", "", "a1 \n a2"⟩ (by decide)

/-! ## Transcript file naming (lines 128-131)

`ts = datetime.now().strftime("%Y%m%d_%H%M%S")` and
`outfile = logs_dir / f"alpaca_\x7bctx.room.name\x7d_\x7bts\x7d.jsonl"`. -/

/-- A second-resolution wall-clock reading, the data `strftime("%Y%m%d_%H%M%S")`
depends on. -/
structure DateTime where
  year : Nat
  month : Nat
  day : Nat
  hour : Nat
  minute : Nat
  second : Nat
deriving DecidableEq, Repr

/-- Field ranges every reading of a real clock satisfies (four-digit year,
calendar month/day, 24-hour time). -/
def ValidDT (dt : DateTime) : Prop :=
  dt.year < 10000 ∧ 1 ≤ dt.month ∧ dt.month ≤ 12 ∧ 1 ≤ dt.day ∧ dt.day ≤ 31 ∧
  dt.hour < 24 ∧ dt.minute < 60 ∧ dt.second < 60

instance (dt : DateTime) : Decidable (ValidDT dt) := by
  unfold ValidDT; infer_instance

/-- The ASCII digit for `d`. -/
def digitChar (d : Nat) : Char := Char.ofNat (48 + d)

/-- Two-digit zero-padded decimal rendering (strftime `%m`, `%d`, `%H`, `%M`,
`%S` for in-range values). -/
def pad2 (n : Nat) : List Char :=
  [digitChar (n / 10 % 10), digitChar (n % 10)]

/-- Four-digit zero-padded decimal rendering (strftime `%Y` for years below
10000). -/
def pad4 (n : Nat) : List Char :=
  [digitChar (n / 1000 % 10), digitChar (n / 100 % 10),
   digitChar (n / 10 % 10), digitChar (n % 10)]

/-- The characters of `strftime("%Y%m%d_%H%M%S")`. -/
def tsChars (dt : DateTime) : List Char :=
  pad4 dt.year ++ pad2 dt.month ++ pad2 dt.day ++ ['_'] ++
  pad2 dt.hour ++ pad2 dt.minute ++ pad2 dt.second

/-- Line 128: the timestamp embedded in the transcript filename. -/
def strftimeYmdHMS (dt : DateTime) : String := String.mk (tsChars dt)

/-- Line 131: the transcript filename
`f"alpaca_\x7bctx.room.name\x7d_\x7bts\x7d.jsonl"`. -/
def alpacaFilename (room : String) (dt : DateTime) : String :=
  "alpaca_" ++ room ++ "_" ++ strftimeYmdHMS dt ++ ".jsonl"

/-- Days since 0000-03-01 of a proleptic-Gregorian civil date (Howard
Hinnant's `days_from_civil`, specialised to the non-negative years a clock
reading yields). Used to say when two readings are more than a second apart. -/
def daysFromCivil (y m d : Nat) : Nat :=
  let yAdj := if m ≤ 2 then y - 1 else y
  let era := yAdj / 400
  let yoe := yAdj % 400
  let mp := if 2 < m then m - 3 else m + 9
  let doy := (153 * mp + 2) / 5 + (d - 1)
  let doe := yoe * 365 + yoe / 4 - yoe / 100 + doy
  era * 146097 + doe

/-- Seconds since 0000-03-01T00:00:00 of a wall-clock reading. -/
def secondsOfDateTime (dt : DateTime) : Nat :=
  daysFromCivil dt.year dt.month dt.day * 86400
    + dt.hour * 3600 + dt.minute * 60 + dt.second

theorem digitChar_inj (a b : Nat) (ha : a < 10) (hb : b < 10)
    (h : digitChar a = digitChar b) : a = b := by
  interval_cases a <;> interval_cases b <;> revert h <;> decide

theorem tsChars_inj (dt1 dt2 : DateTime) (h1 : ValidDT dt1) (h2 : ValidDT dt2)
    (h : tsChars dt1 = tsChars dt2) : dt1 = dt2 := by
  obtain ⟨hy1, hmo1, hmo1b, hd1, hd1b, hh1, hmi1, hs1⟩ := h1
  obtain ⟨hy2, hmo2, hmo2b, hd2, hd2b, hh2, hmi2, hs2⟩ := h2
  cases dt1 with
  | mk y1 mo1 d1 h1 mi1 s1 =>
    cases dt2 with
    | mk y2 mo2 d2 h2 mi2 s2 =>
      simp only [tsChars, pad4, pad2, List.cons_append, List.nil_append,
        List.cons.injEq, and_true] at h
      obtain ⟨e1, e2, e3, e4, e5, e6, e7, e8, _, e9, e10, e11, e12, e13, e14⟩ := h
      have d10 : ∀ x : Nat, x % 10 < 10 := fun x => Nat.mod_lt _ (by norm_num)
      have q1 := digitChar_inj _ _ (d10 _) (d10 _) e1
      have q2 := digitChar_inj _ _ (d10 _) (d10 _) e2
      have q3 := digitChar_inj _ _ (d10 _) (d10 _) e3
      have q4 := digitChar_inj _ _ (d10 _) (d10 _) e4
      have q5 := digitChar_inj _ _ (d10 _) (d10 _) e5
      have q6 := digitChar_inj _ _ (d10 _) (d10 _) e6
      have q7 := digitChar_inj _ _ (d10 _) (d10 _) e7
      have q8 := digitChar_inj _ _ (d10 _) (d10 _) e8
      have q9 := digitChar_inj _ _ (d10 _) (d10 _) e9
      have q10 := digitChar_inj _ _ (d10 _) (d10 _) e10
      have q11 := digitChar_inj _ _ (d10 _) (d10 _) e11
      have q12 := digitChar_inj _ _ (d10 _) (d10 _) e12
      have q13 := digitChar_inj _ _ (d10 _) (d10 _) e13
      have q14 := digitChar_inj _ _ (d10 _) (d10 _) e14
      simp only [DateTime.mk.injEq] at *
      refine ⟨?_, ?_, ?_, ?_, ?_, ?_⟩ <;> omega

/-- C3: the transcript filename follows the pattern
`<prefix>_<room-name>_<timestamp>.jsonl` with second-granularity timestamp
`%Y%m%d_%H%M%S`, and two writes in the same room more than one second apart
get distinct filenames. -/
theorem alpacaFilename_pattern_distinct (room : String) (dt1 dt2 : DateTime)
    (h1 : ValidDT dt1) (h2 : ValidDT dt2) :
    alpacaFilename room dt1
      = "alpaca_" ++ room ++ "_" ++ String.mk (tsChars dt1) ++ ".jsonl" ∧
    (secondsOfDateTime dt1 + 1 < secondsOfDateTime dt2 →
      alpacaFilename room dt1 ≠ alpacaFilename room dt2) := by
  refine ⟨rfl, fun hsec heq => ?_⟩
  have hdata : (alpacaFilename room dt1).data = (alpacaFilename room dt2).data :=
    congrArg String.data heq
  simp only [alpacaFilename, String.data_append] at hdata
  have hdt : dt1 = dt2 := tsChars_inj dt1 dt2 h1 h2
    (List.append_cancel_left (List.append_cancel_right hdata))
  rw [hdt] at hsec
  omega

/-- Witness for C3: a concrete room and two readings two seconds apart. -/
theorem alpacaFilename_pattern_distinct_witness :
    ValidDT ⟨2026, 10, 12, 9, 30, 0⟩ ∧ ValidDT ⟨2026, 10, 12, 9, 30, 2⟩ ∧
    secondsOfDateTime ⟨2026, 10, 12, 9, 30, 0⟩ + 1
      < secondsOfDateTime ⟨2026, 10, 12, 9, 30, 2⟩ ∧
    alpacaFilename "room1" ⟨2026, 10, 12, 9, 30, 0⟩
      ≠ alpacaFilename "room1" ⟨2026, 10, 12, 9, 30, 2⟩ := by
  refine ⟨by decide, by decide, by decide, ?_⟩
  exact (alpacaFilename_pattern_distinct "room1" ⟨2026, 10, 12, 9, 30, 0⟩
    ⟨2026, 10, 12, 9, 30, 2⟩ (by decide) (by decide)).2 (by decide)

/-! ## File-system effects of the transcript hook (lines 128-158) -/

/-- A minimal file-system state: the existing directories and the written
files (path paired with the records the file holds, one JSON line each). -/
structure FS where
  dirs : List String
  files : List (String × List AlpacaRecord)
deriving DecidableEq, Repr

/-- Line 130: `logs_dir.mkdir(exist_ok=True)` — no error if the directory
already exists; otherwise create it, failing (like `Path.mkdir` without
`parents=True`) when the parent directory is missing. -/
def mkdirExistOk (fs : FS) (parent dir : String) : Except String FS :=
  if dir ∈ fs.dirs then .ok fs
  else if parent ∈ fs.dirs then .ok { fs with dirs := dir :: fs.dirs }
  else .error "FileNotFoundError"

/-- Line 138: `outfile.open("w", ...)` plus the loop's writes — fails when the
containing directory does not exist. -/
def writeFile (fs : FS) (dir path : String) (recs : List AlpacaRecord) :
    Except String FS :=
  if dir ∈ fs.dirs then .ok { fs with files := (path, recs) :: fs.files }
  else .error "FileNotFoundError"

/-- The observable state the shutdown hooks act on: the session's
conversation history (owned by the framework and only read here), the file
system, and the process's logging output. -/
structure World where
  history : List HistoryEntry
  fs : FS
  log : List String
deriving DecidableEq, Repr

/-- The transcript file path of a session (line 131's `outfile`). -/
def outfilePath (scriptDir room : String) (dt : DateTime) : String :=
  scriptDir ++ "/logs" ++ "/" ++ alpacaFilename room dt

/-- Lines 138-158 after the directory step: write the Alpaca records of
`session.history` to the timestamped transcript file and log one line; a
failing write aborts with its error. -/
def finishWrite (scriptDir room : String) (dt : DateTime) (w : World)
    (fs1 : FS) : Except String World :=
  match writeFile fs1 (scriptDir ++ "/logs") (outfilePath scriptDir room dt)
      (save_transcript_alpaca w.history) with
  | .error e => .error e
  | .ok fs2 =>
    .ok { w with
          fs := fs2
          log := w.log ++ ["Alpaca transcript saved → "
            ++ outfilePath scriptDir room dt] }

/-- Lines 126-158: the whole effect of `save_transcript_alpaca`: resolve the
logs directory next to the script, create it if missing, then write the
transcript; a failing step aborts the function with its error. -/
def save_transcript_alpaca_world (scriptDir room : String) (dt : DateTime)
    (w : World) : Except String World :=
  match mkdirExistOk w.fs scriptDir (scriptDir ++ "/logs") with
  | .error e => .error e
  | .ok fs1 => finishWrite scriptDir room dt w fs1

theorem mkdirExistOk_creates (fs : FS) (parent dir : String)
    (hparent : parent ∈ fs.dirs) :
    ∃ fs1, mkdirExistOk fs parent dir = .ok fs1 ∧ dir ∈ fs1.dirs := by
  unfold mkdirExistOk
  by_cases hdir : dir ∈ fs.dirs
  · exact ⟨fs, by rw [if_pos hdir], hdir⟩
  · exact ⟨_, by rw [if_neg hdir, if_pos hparent], List.mem_cons_self _ _⟩

theorem writeFile_ok (fs : FS) (dir path : String)
    (recs : List AlpacaRecord) (hdir : dir ∈ fs.dirs) :
    writeFile fs dir path recs = .ok { fs with files := (path, recs) :: fs.files } := by
  unfold writeFile
  rw [if_pos hdir]

/-- C4: when the script's own directory exists, `save_transcript_alpaca`
creates the log directory (if missing) before opening the transcript file, so
the write succeeds and the log directory exists afterwards. -/
theorem save_transcript_alpaca_dir_created (scriptDir room : String)
    (dt : DateTime) (w : World) (hparent : scriptDir ∈ w.fs.dirs) :
    ∃ w', save_transcript_alpaca_world scriptDir room dt w = .ok w' ∧
      (scriptDir ++ "/logs") ∈ w'.fs.dirs := by
  obtain ⟨fs1, hm, hdir1⟩ :=
    mkdirExistOk_creates w.fs scriptDir (scriptDir ++ "/logs") hparent
  refine ⟨{ w with
      fs := { fs1 with
        files := (outfilePath scriptDir room dt,
          save_transcript_alpaca w.history) :: fs1.files }
      log := w.log ++ ["Alpaca transcript saved → "
        ++ outfilePath scriptDir room dt] }, ?_, hdir1⟩
  unfold save_transcript_alpaca_world
  rw [hm]
  show finishWrite scriptDir room dt w fs1 = _
  unfold finishWrite
  rw [writeFile_ok fs1 (scriptDir ++ "/logs") (outfilePath scriptDir room dt)
    (save_transcript_alpaca w.history) hdir1]

/-- Witness for C4 on a concrete file system holding only the script's
directory. -/
theorem save_transcript_alpaca_dir_created_witness :
    ∃ w', save_transcript_alpaca_world "/sd" "room1" ⟨2026, 1, 2, 3, 4, 5⟩
        ⟨[], ⟨["/sd"], []⟩, []⟩ = .ok w' ∧ "/sd/logs" ∈ w'.fs.dirs :=
  save_transcript_alpaca_dir_created "/sd" "room1" ⟨2026, 1, 2, 3, 4, 5⟩
    ⟨[], ⟨["/sd"], []⟩, []⟩ (by decide)

/-- C8: the transcript hook treats the conversation history as a read-only
snapshot: whenever it completes, the history in the resulting state is the
one it was given. -/
theorem save_transcript_alpaca_history_preserved (scriptDir room : String)
    (dt : DateTime) (w w' : World)
    (h : save_transcript_alpaca_world scriptDir room dt w = .ok w') :
    w'.history = w.history := by
  unfold save_transcript_alpaca_world at h
  cases hm : mkdirExistOk w.fs scriptDir (scriptDir ++ "/logs") with
  | error e => rw [hm] at h; exact Except.noConfusion h
  | ok fs1 =>
    rw [hm] at h
    have h1 : finishWrite scriptDir room dt w fs1 = .ok w' := h
    unfold finishWrite at h1
    cases hw : writeFile fs1 (scriptDir ++ "/logs") (outfilePath scriptDir room dt)
        (save_transcript_alpaca w.history) with
    | error e => rw [hw] at h1; exact Except.noConfusion h1
    | ok fs2 =>
      rw [hw] at h1
      have h2 : World.mk w.history fs2 (w.log ++ ["Alpaca transcript saved → "
          ++ outfilePath scriptDir room dt]) = w' := Except.ok.inj h1
      rw [← h2]

/-- Witness for C8 on a concrete session: the history component of the state
after a successful transcript write equals the history it started with. -/
theorem save_transcript_alpaca_history_preserved_witness :
    (World.mk [⟨"user", .strVal "q"⟩, ⟨"assistant", .strVal "a"⟩]
        ⟨["d/logs"], [("d/logs/alpaca_r_20260102_030405.jsonl", [⟨"q", "", "a"⟩])]⟩
        ["Alpaca transcript saved → d/logs/alpaca_r_20260102_030405.jsonl"]).history
      = (World.mk [⟨"user", .strVal "q"⟩, ⟨"assistant", .strVal "a"⟩]
          ⟨["d/logs"], []⟩ []).history :=
  save_transcript_alpaca_history_preserved "d" "r" ⟨2026, 1, 2, 3, 4, 5⟩
    (World.mk [⟨"user", .strVal "q"⟩, ⟨"assistant", .strVal "a"⟩]
      ⟨["d/logs"], []⟩ [])
    (World.mk [⟨"user", .strVal "q"⟩, ⟨"assistant", .strVal "a"⟩]
      ⟨["d/logs"], [("d/logs/alpaca_r_20260102_030405.jsonl", [⟨"q", "", "a"⟩])]⟩
      ["Alpaca transcript saved → d/logs/alpaca_r_20260102_030405.jsonl"])
    (by rfl)

/-! ## Log-directory resolution (line 129) -/

/-- Line 129: `logs_dir = Path(__file__).parent / "logs"` — a function of the
script file's directory only; the current working directory is never
consulted and no environment variable is read anywhere in the script. -/
def logsDirOf (_cwd scriptDir : String) : String := scriptDir ++ "/logs"

/-- Modelled from the spec: a default log directory `./logs` resolved
relative to the current working directory. Stated only to compare with
`logsDirOf`, which is what the code computes. -/
def logsDirSpec (cwd : String) : String := cwd ++ "/logs"

/-- Counterexample to C5: when the process runs with a working directory
different from the script's directory, the code's log directory is not
`./logs` relative to the working directory. -/
theorem logsDir_not_cwd_relative :
    logsDirOf "/home/user" "/repo/examples/voice_agents"
      ≠ logsDirSpec "/home/user" := by decide

/-- C5 (amended): the transcript directory is the `logs` folder under the
script file's own directory, independent of the current working directory;
this script has no environment-variable override. -/
theorem logsDir_script_relative (cwd1 cwd2 scriptDir : String) :
    logsDirOf cwd1 scriptDir = scriptDir ++ "/logs" ∧
    logsDirOf cwd1 scriptDir = logsDirOf cwd2 scriptDir :=
  ⟨rfl, rfl⟩

/-! ## Error propagation inside the write loop (C6) -/

/-- Lines 138-156 as a fallible computation: serializing a record
(`json.dumps`) and writing its line (`fp.write`) may each raise; the function
body contains no try/except, so each step is sequenced directly and the
first failure aborts the whole function with that error. -/
def writeRecords (ser : AlpacaRecord → Except String String)
    (write : String → Except String Unit) :
    List AlpacaRecord → Except String Unit
  | [] => .ok ()
  | r :: rs =>
    match ser r with
    | .error e => .error e
    | .ok line =>
      match write line with
      | .error e => .error e
      | .ok _ => writeRecords ser write rs

/-- C6: `save_transcript_alpaca` performs no error handling: if serializing
or writing any record raises (all earlier records succeeding), the whole
function fails with exactly that error, rather than catching it. -/
theorem writeRecords_propagates (ser : AlpacaRecord → Except String String)
    (write : String → Except String Unit) (rs1 : List AlpacaRecord)
    (r : AlpacaRecord) (rs2 : List AlpacaRecord) (e : String)
    (hok : ∀ x ∈ rs1, ∃ l, ser x = .ok l ∧ write l = .ok ()) :
    (ser r = .error e → writeRecords ser write (rs1 ++ r :: rs2) = .error e) ∧
    (∀ line, ser r = .ok line → write line = .error e →
      writeRecords ser write (rs1 ++ r :: rs2) = .error e) := by
  induction rs1 with
  | nil =>
    constructor
    · intro hs
      simp [writeRecords, hs]
    · intro line hs hw
      simp [writeRecords, hs, hw]
  | cons x xs ih =>
    obtain ⟨l, hsl, hwl⟩ := hok x (List.mem_cons_self x xs)
    have ih2 := ih (fun y hy => hok y (List.mem_cons_of_mem x hy))
    constructor
    · intro hs
      simp only [List.cons_append, writeRecords, hsl, hwl]
      exact ih2.1 hs
    · intro line hs hw
      simp only [List.cons_append, writeRecords, hsl, hwl]
      exact ih2.2 line hs hw

/-- Witness for C6: a concrete writer that fails on the second record's line
makes the whole loop fail with that error after one successful record. -/
theorem writeRecords_propagates_witness :
    writeRecords (fun r => .ok r.instruction)
      (fun l => if l = "x" then .error "disk full" else .ok ())
      [⟨"a", "", ""⟩, ⟨"x", "", ""⟩] = .error "disk full" :=
  (writeRecords_propagates (fun r => .ok r.instruction)
      (fun l => if l = "x" then .error "disk full" else .ok ())
      [⟨"a", "", ""⟩] ⟨"x", "", ""⟩ [] "disk full"
      (fun x hx => ⟨x.instruction, rfl, by
        simp only [List.mem_singleton] at hx
        subst hx
        show (if ("a" : String) = "x" then (Except.error "disk full" : Except String Unit)
          else .ok ()) = .ok ()
        rw [if_neg (by decide)]⟩)).2
    "x" rfl (by rfl)

/-! ## The usage-summary hook (lines 170-173) -/

/-- Lines 170-171: `log_usage` formats the usage summary into the process's
logging output and does nothing else. -/
def log_usage (summary : String) (w : World) : World :=
  { w with log := w.log ++ ["Usage summary: " ++ summary] }

/-- C7: the usage-summary hook only appends one line to the process's logging
output; the file system (and the history) are untouched, so the summary is
never persisted to a file. -/
theorem log_usage_logs_only (summary : String) (w : World) :
    (log_usage summary w).fs = w.fs ∧
    (log_usage summary w).history = w.history ∧
    (log_usage summary w).log = w.log ++ ["Usage summary: " ++ summary] :=
  ⟨rfl, rfl, rfl⟩

/-! ## Shutdown-hook registration and execution (lines 160, 173) -/

/-- The outcome one shutdown callback's body produces. -/
inductive HookResult where
  | ok : HookResult
  | failed : String → HookResult
deriving DecidableEq, Repr

/-- A registered shutdown callback: its name and the outcome its body
produces at shutdown. -/
structure Hook where
  name : String
  result : HookResult
deriving DecidableEq, Repr

/-- Lines 160 and 173: `entrypoint` registers exactly two shutdown callbacks,
the transcript hook first and `log_usage` second; the transcript hook's
outcome is arbitrary (it may raise), while `log_usage` only logs. -/
def entrypointHooks (transcriptOutcome : HookResult) : List Hook :=
  [⟨"save_transcript_alpaca", transcriptOutcome⟩, ⟨"log_usage", .ok⟩]

/-- Modelled from the spec: the external framework's shutdown runner
(`ctx.add_shutdown_callback` and the session teardown, which live in the
LiveKit framework, not in this repository) invokes every registered callback
once per shutdown and continues with the remaining callbacks when one fails.
Returns the invocation record: each invoked hook's name with its outcome. -/
def runShutdown : List Hook → List (String × HookResult)
  | [] => []
  | h :: hs => (h.name, h.result) :: runShutdown hs

/-- C2: on every shutdown, `log_usage` is invoked exactly once, whatever the
transcript hook's outcome — in particular also when it fails. -/
theorem log_usage_invoked_once (transcriptOutcome : HookResult) :
    ((runShutdown (entrypointHooks transcriptOutcome)).filter
        (fun p => p.1 = "log_usage")).length = 1 ∧
    ((runShutdown (entrypointHooks (.failed "boom"))).filter
        (fun p => p.1 = "log_usage")).length = 1 := by
  constructor
  · simp [runShutdown, entrypointHooks]
  · simp [runShutdown, entrypointHooks]

end MindBot
